import Mathlib

/-!
Verification of the cache-simulator core: the `Cache` class
(`src/cache_simulator/cache_dataset/cache.py`) and the six memory-access
pattern generators (`src/cache_simulator/cache_dataset/patterns/`).

The embedding is shallow:
* a `Cache` is a record of its configuration and mutable storage —
  `cache` is the per-set tag store (one list per set, ordered from
  least- to most-recently used, head = LRU), `tag_set` the auxiliary
  global set of resident tags;
* Python's `OrderedDict` with `move_to_end` / `popitem(last=False)` on
  keys only becomes a `List Nat` with erase-and-append / tail;
* fallible construction returns `Except String Cache`
  (`ValueError` ~ `Except.error`);
* the pattern generators consume explicit entropy streams: a draw
  `random.randint(lo, hi)` becomes `lo + d % (hi - lo + 1)` for an
  arbitrary stream value `d`, and a probabilistic branch
  `random.random() < p` becomes a value of an arbitrary `Bool` stream,
  so theorems quantify over every outcome the Python draws could take.
-/

namespace CacheSim

/-- State of `Cache` (cache.py): configuration fields plus the per-set
LRU tag store and the auxiliary global tag set. -/
structure Cache where
  line_size : Nat
  num_lines : Nat
  associativity : Nat
  num_sets : Nat
  lines_per_set : Nat
  cache : List (List Nat)
  tag_set : Finset Nat
deriving DecidableEq

/-- `Cache.__init__` (cache.py lines 24-62): derive `num_sets` and
`lines_per_set` from the associativity mode; `ValueError` when
`associativity > 1` does not divide `num_lines`; all sets start empty. -/
def Cache.construct (line_size num_lines associativity : Nat) :
    Except String Cache :=
  if associativity = 0 then
    .ok { line_size := line_size, num_lines := num_lines,
          associativity := associativity,
          num_sets := 1, lines_per_set := num_lines,
          cache := List.replicate 1 [], tag_set := ∅ }
  else if associativity = 1 then
    .ok { line_size := line_size, num_lines := num_lines,
          associativity := associativity,
          num_sets := num_lines, lines_per_set := 1,
          cache := List.replicate num_lines [], tag_set := ∅ }
  else if num_lines % associativity ≠ 0 then
    .error "Number of cache lines must be divisible by the degree of associativity."
  else
    .ok { line_size := line_size, num_lines := num_lines,
          associativity := associativity,
          num_sets := num_lines / associativity,
          lines_per_set := associativity,
          cache := List.replicate (num_lines / associativity) [],
          tag_set := ∅ }

/-- `Cache.get_tag` (cache.py lines 77-84): the tag is the line address. -/
def Cache.get_tag (c : Cache) (address : Nat) : Nat :=
  address / c.line_size

/-- `Cache.get_set_index` (cache.py lines 64-75): set 0 when fully
associative, else line address modulo the number of sets. -/
def Cache.get_set_index (c : Cache) (address : Nat) : Nat :=
  let line_address := address / c.line_size
  if c.associativity = 0 then 0
  else line_address % c.num_sets

/-- `Cache.is_in_cache` (cache.py lines 86-99): on a hit move the tag to
the MRU end of its set (OrderedDict `move_to_end`) and return `true`;
on a miss return `false` without mutation. -/
def Cache.is_in_cache (c : Cache) (address : Nat) : Bool × Cache :=
  let set_idx := c.get_set_index address
  let tag := c.get_tag address
  let s := c.cache.getD set_idx []
  if tag ∈ s then
    (true, { c with cache := c.cache.set set_idx (s.erase tag ++ [tag]) })
  else
    (false, c)

/-- `Cache.add_to_cache` (cache.py lines 101-121): touch if resident;
otherwise evict the set's LRU head when the set is at capacity
(removing it from `tag_set` too), then append the new tag at the MRU
end and record it in `tag_set`. -/
def Cache.add_to_cache (c : Cache) (address : Nat) : Cache :=
  let set_idx := c.get_set_index address
  let tag := c.get_tag address
  let s := c.cache.getD set_idx []
  if tag ∈ s then
    { c with cache := c.cache.set set_idx (s.erase tag ++ [tag]) }
  else if c.lines_per_set ≤ s.length then
    let lru_tag := s.headD 0
    { c with cache := c.cache.set set_idx (s.tail ++ [tag]),
             tag_set := insert tag (c.tag_set.erase lru_tag) }
  else
    { c with cache := c.cache.set set_idx (s ++ [tag]),
             tag_set := insert tag c.tag_set }

/-- `Cache.reset_cache` (cache.py lines 123-126): every set emptied,
`tag_set` emptied, configuration unchanged. -/
def Cache.reset_cache (c : Cache) : Cache :=
  { c with cache := List.replicate c.num_sets [], tag_set := ∅ }

/-- Insert a list of addresses in order (`add_to_cache` folded). -/
def insertAll (c : Cache) (as : List Nat) : Cache :=
  as.foldl Cache.add_to_cache c

/-- Probe a list of addresses in order, collecting each hit/miss result
and threading the cache state. -/
def probeAll (c : Cache) : List Nat → Cache × List Bool
  | [] => (c, [])
  | a :: as =>
    let (r, c') := c.is_in_cache a
    let (c'', rs) := probeAll c' as
    (c'', r :: rs)

/-! ### Configuration fields are never mutated by the operations -/

@[simp] theorem line_size_add_to_cache (c : Cache) (a : Nat) :
    (c.add_to_cache a).line_size = c.line_size := by
  simp only [Cache.add_to_cache]; split <;> [rfl; split <;> rfl]

@[simp] theorem associativity_add_to_cache (c : Cache) (a : Nat) :
    (c.add_to_cache a).associativity = c.associativity := by
  simp only [Cache.add_to_cache]; split <;> [rfl; split <;> rfl]

@[simp] theorem lines_per_set_add_to_cache (c : Cache) (a : Nat) :
    (c.add_to_cache a).lines_per_set = c.lines_per_set := by
  simp only [Cache.add_to_cache]; split <;> [rfl; split <;> rfl]

@[simp] theorem num_sets_add_to_cache (c : Cache) (a : Nat) :
    (c.add_to_cache a).num_sets = c.num_sets := by
  simp only [Cache.add_to_cache]; split <;> [rfl; split <;> rfl]

@[simp] theorem line_size_is_in_cache (c : Cache) (a : Nat) :
    (c.is_in_cache a).2.line_size = c.line_size := by
  simp only [Cache.is_in_cache]; split <;> rfl

@[simp] theorem associativity_is_in_cache (c : Cache) (a : Nat) :
    (c.is_in_cache a).2.associativity = c.associativity := by
  simp only [Cache.is_in_cache]; split <;> rfl

@[simp] theorem lines_per_set_is_in_cache (c : Cache) (a : Nat) :
    (c.is_in_cache a).2.lines_per_set = c.lines_per_set := by
  simp only [Cache.is_in_cache]; split <;> rfl

@[simp] theorem num_sets_is_in_cache (c : Cache) (a : Nat) :
    (c.is_in_cache a).2.num_sets = c.num_sets := by
  simp only [Cache.is_in_cache]; split <;> rfl

/-! ### Behavior of a fully associative cache (one set) -/

theorem fa_is_in_cache (c : Cache) (hA : c.associativity = 0)
    (l : List Nat) (hc : c.cache = [l]) (a : Nat) :
    c.is_in_cache a =
      if a / c.line_size ∈ l then
        (true, { c with cache := [l.erase (a / c.line_size) ++ [a / c.line_size]] })
      else (false, c) := by
  unfold Cache.is_in_cache Cache.get_set_index Cache.get_tag
  simp [hA, hc]

theorem fa_add_to_cache (c : Cache) (hA : c.associativity = 0)
    (l : List Nat) (hc : c.cache = [l]) (a : Nat) :
    c.add_to_cache a =
      if a / c.line_size ∈ l then
        { c with cache := [l.erase (a / c.line_size) ++ [a / c.line_size]] }
      else if c.lines_per_set ≤ l.length then
        { c with cache := [l.tail ++ [a / c.line_size]],
                 tag_set := insert (a / c.line_size) (c.tag_set.erase (l.headD 0)) }
      else
        { c with cache := [l ++ [a / c.line_size]],
                 tag_set := insert (a / c.line_size) c.tag_set } := by
  unfold Cache.add_to_cache Cache.get_set_index Cache.get_tag
  simp [hA, hc]

theorem insertAll_fa (ls cap : Nat) (as : List Nat) :
    ∀ (c : Cache) (l : List Nat),
    c.line_size = ls → c.associativity = 0 → c.lines_per_set = cap →
    c.cache = [l] →
    (∀ a ∈ as, a / ls ∉ l) → (as.map (fun a => a / ls)).Nodup →
    l.length + as.length ≤ cap →
    (insertAll c as).cache = [l ++ as.map (fun a => a / ls)] := by
  induction as with
  | nil => intro c l hls hA _ hc _ _ _; simpa [insertAll] using hc
  | cons a as ih =>
    intro c l hls hA hcap hc hfresh hnd hlen
    have htag : a / ls ∉ l := hfresh a (by simp)
    have hnotfull : ¬ c.lines_per_set ≤ l.length := by
      simp only [List.length_cons] at hlen; omega
    have hstep : c.add_to_cache a =
        { c with cache := [l ++ [a / ls]],
                 tag_set := insert (a / ls) c.tag_set } := by
      rw [fa_add_to_cache c hA l hc a, hls, if_neg htag, if_neg hnotfull]
    have hres : insertAll c (a :: as) = insertAll (c.add_to_cache a) as := by
      simp [insertAll]
    rw [hres, hstep]
    have := ih { c with cache := [l ++ [a / ls]],
                        tag_set := insert (a / ls) c.tag_set }
        (l ++ [a / ls]) hls hA hcap rfl
        (by
          intro b hb
          simp only [List.mem_append, List.mem_singleton]
          rintro (h | h)
          · exact hfresh b (by simp [hb]) h
          · simp only [List.map_cons, List.nodup_cons] at hnd
            exact hnd.1 (h ▸ List.mem_map_of_mem (fun a => a / ls) hb))
        (by simpa using hnd.of_cons)
        (by simp only [List.length_append, List.length_singleton,
              List.length_cons, List.length_nil] at *; omega)
    rw [this]
    simp

theorem probeAll_fa (ls : Nat) (as : List Nat) :
    ∀ (c : Cache) (pre : List Nat),
    c.line_size = ls → c.associativity = 0 →
    c.cache = [as.map (fun a => a / ls) ++ pre] →
    (as.map (fun a => a / ls) ++ pre).Nodup →
    (probeAll c as).2 = List.replicate as.length true ∧
    (probeAll c as).1.cache = [pre ++ as.map (fun a => a / ls)] := by
  induction as with
  | nil => intro c pre _ _ hc _; simpa [probeAll] using hc
  | cons a as ih =>
    intro c pre hls hA hc hnd
    simp only [List.map_cons, List.cons_append] at hc hnd
    have hmem : a / c.line_size ∈ a / ls :: (as.map (fun a => a / ls) ++ pre) := by
      simp [hls]
    have hstep : c.is_in_cache a =
        (true, { c with cache := [(as.map (fun a => a / ls) ++ pre) ++ [a / ls]] }) := by
      rw [fa_is_in_cache c hA _ hc a, if_pos hmem]
      simp [hls]
    have hperm : ((as.map (fun x => x / ls) ++ pre) ++ [a / ls]).Nodup := by
      refine (List.perm_append_singleton _ _).symm.nodup ?_
      · exact hnd
    have hrec := ih { c with cache := [(as.map (fun a => a / ls) ++ pre) ++ [a / ls]] }
        (pre ++ [a / ls]) hls hA (by simp) (by simpa using hperm)
    refine ⟨?_, ?_⟩
    · simp only [probeAll, hstep, List.length_cons, List.replicate_succ]
      exact congrArg (true :: ·) hrec.1
    · simp only [probeAll, hstep]
      rw [hrec.2]
      simp

@[simp] theorem line_size_insertAll (as : List Nat) :
    ∀ c : Cache, (insertAll c as).line_size = c.line_size := by
  induction as with
  | nil => intro c; rfl
  | cons a as ih => intro c; simpa [insertAll] using ih (c.add_to_cache a)

@[simp] theorem associativity_insertAll (as : List Nat) :
    ∀ c : Cache, (insertAll c as).associativity = c.associativity := by
  induction as with
  | nil => intro c; rfl
  | cons a as ih => intro c; simpa [insertAll] using ih (c.add_to_cache a)

@[simp] theorem lines_per_set_insertAll (as : List Nat) :
    ∀ c : Cache, (insertAll c as).lines_per_set = c.lines_per_set := by
  induction as with
  | nil => intro c; rfl
  | cons a as ih => intro c; simpa [insertAll] using ih (c.add_to_cache a)

@[simp] theorem line_size_probeAll (as : List Nat) :
    ∀ c : Cache, (probeAll c as).1.line_size = c.line_size := by
  induction as with
  | nil => intro c; rfl
  | cons a as ih => intro c; simpa [probeAll] using ih (c.is_in_cache a).2

@[simp] theorem associativity_probeAll (as : List Nat) :
    ∀ c : Cache, (probeAll c as).1.associativity = c.associativity := by
  induction as with
  | nil => intro c; rfl
  | cons a as ih => intro c; simpa [probeAll] using ih (c.is_in_cache a).2

@[simp] theorem lines_per_set_probeAll (as : List Nat) :
    ∀ c : Cache, (probeAll c as).1.lines_per_set = c.lines_per_set := by
  induction as with
  | nil => intro c; rfl
  | cons a as ih => intro c; simpa [probeAll] using ih (c.is_in_cache a).2

/-- **C1.** Fully associative cache with `N` lines: inserting `N` addresses
with pairwise distinct tags and then probing them all (in the same order)
yields a hit for every one; inserting one more address with a fresh tag
evicts exactly the least-recently-touched tag (the first one), so that
address alone then probes as a miss while the others and the newcomer hit. -/
theorem fully_assoc_fill_probe_evicts_lru
    (ls N : Nat) (as : List Nat) (b : Nat) (c0 : Cache)
    (hc : Cache.construct ls N 0 = .ok c0)
    (hlen : as.length = N) (hpos : 0 < N)
    (hnd : (as.map (fun a => a / ls)).Nodup)
    (hb : b / ls ∉ as.map (fun a => a / ls)) :
    (probeAll (insertAll c0 as) as).2 = List.replicate N true ∧
    ((probeAll (insertAll c0 as) as).1.add_to_cache b).cache
      = [(as.map (fun a => a / ls)).tail ++ [b / ls]] ∧
    (((probeAll (insertAll c0 as) as).1.add_to_cache b).is_in_cache
      (as.headD 0)).1 = false ∧
    (∀ a ∈ as.tail,
      (((probeAll (insertAll c0 as) as).1.add_to_cache b).is_in_cache a).1
        = true) ∧
    (((probeAll (insertAll c0 as) as).1.add_to_cache b).is_in_cache b).1
      = true := by
  have hc0 : c0 =
      { line_size := ls, num_lines := N, associativity := 0,
        num_sets := 1, lines_per_set := N,
        cache := List.replicate 1 [], tag_set := ∅ } := by
    unfold Cache.construct at hc
    simpa using hc.symm
  have hls : c0.line_size = ls := by rw [hc0]
  have hA : c0.associativity = 0 := by rw [hc0]
  have hcap : c0.lines_per_set = N := by rw [hc0]
  have hcache : c0.cache = [[]] := by rw [hc0]; rfl
  -- after the inserts, the single set holds the tags in order
  have h1 : (insertAll c0 as).cache = [as.map (fun a => a / ls)] := by
    have := insertAll_fa ls N as c0 [] hls hA hcap hcache
      (by intro a _ h; simp at h) hnd (by simp [hlen])
    simpa using this
  set c1 := insertAll c0 as with hc1
  have h1ls : c1.line_size = ls := by simp [hc1, hls]
  have h1A : c1.associativity = 0 := by simp [hc1, hA]
  have h1cap : c1.lines_per_set = N := by simp [hc1, hcap]
  -- probing them all hits every one and restores the order
  have h2 := probeAll_fa ls as c1 [] h1ls h1A (by simpa using h1)
    (by simpa using hnd)
  set c2 := (probeAll c1 as).1 with hc2
  have h2ls : c2.line_size = ls := by simp [hc2, h1ls]
  have h2A : c2.associativity = 0 := by simp [hc2, h1A]
  have h2cap : c2.lines_per_set = N := by simp [hc2, h1cap]
  have h2cache : c2.cache = [as.map (fun a => a / ls)] := by
    simpa using h2.2
  -- inserting the fresh tag evicts the head
  have hfull : c2.lines_per_set ≤ (as.map (fun a => a / ls)).length := by
    simp [h2cap, hlen]
  have hbmem : ¬ b / c2.line_size ∈ as.map (fun a => a / ls) := by
    rw [h2ls]; exact hb
  have h3 : c2.add_to_cache b =
      { c2 with cache := [(as.map (fun a => a / ls)).tail ++ [b / ls]],
                tag_set := insert (b / ls)
                  (c2.tag_set.erase ((as.map (fun a => a / ls)).headD 0)) } := by
    rw [fa_add_to_cache c2 h2A _ h2cache b, if_neg hbmem, if_pos hfull, h2ls]
  set c3 := c2.add_to_cache b with hc3
  have h3ls : c3.line_size = ls := by simp [hc3, h2ls]
  have h3A : c3.associativity = 0 := by simp [hc3, h2A]
  have h3cache : c3.cache = [(as.map (fun a => a / ls)).tail ++ [b / ls]] := by
    rw [h3]
  obtain ⟨a0, as', rfl⟩ : ∃ a0 as', as = a0 :: as' := by
    cases as with
    | nil => simp at hlen; omega
    | cons a0 as' => exact ⟨a0, as', rfl⟩
  have htail : (List.map (fun a => a / ls) (a0 :: as')).tail
      = as'.map (fun a => a / ls) := by simp
  have hnda0 : a0 / ls ∉ as'.map (fun a => a / ls) := by
    simp only [List.map_cons, List.nodup_cons] at hnd
    exact hnd.1
  have hba0 : b / ls ≠ a0 / ls := by
    intro h
    exact hb (by simp [h])
  refine ⟨by simpa [hlen] using h2.1, h3cache, ?_, ?_, ?_⟩
  · -- the first inserted address now misses
    have hnotmem : ¬ (a0 :: as').headD 0 / c3.line_size
        ∈ (List.map (fun a => a / ls) (a0 :: as')).tail ++ [b / ls] := by
      simp only [List.headD_cons, h3ls, htail, List.mem_append,
        List.mem_singleton]
      rintro (h | h)
      · exact hnda0 h
      · exact hba0 h.symm
    rw [fa_is_in_cache c3 h3A _ h3cache ((a0 :: as').headD 0), if_neg hnotmem]
  · -- every other original address still hits
    intro a ha
    simp only [List.tail_cons] at ha
    have hmem : a / c3.line_size
        ∈ (List.map (fun a => a / ls) (a0 :: as')).tail ++ [b / ls] := by
      simp only [h3ls, htail, List.mem_append]
      exact Or.inl (List.mem_map_of_mem (fun a => a / ls) ha)
    rw [fa_is_in_cache c3 h3A _ h3cache a, if_pos hmem]
  · -- the newcomer hits
    have hmem : b / c3.line_size
        ∈ (List.map (fun a => a / ls) (a0 :: as')).tail ++ [b / ls] := by
      simp [h3ls]
    rw [fa_is_in_cache c3 h3A _ h3cache b, if_pos hmem]

/-- Witness for C1: the spec's concrete scenario B
(`Cache(lineSize=64, numLines=4, associativity=0)`, inserts of
0, 64, 128, 192, then 256). -/
theorem fully_assoc_fill_probe_evicts_lru_witness :
    Cache.construct 64 4 0 =
      .ok (⟨64, 4, 0, 1, 4, [[]], ∅⟩ : Cache) ∧
    ((probeAll (insertAll (⟨64, 4, 0, 1, 4, [[]], ∅⟩ : Cache)
        [0, 64, 128, 192]) [0, 64, 128, 192]).2 = List.replicate 4 true ∧
    ((probeAll (insertAll (⟨64, 4, 0, 1, 4, [[]], ∅⟩ : Cache)
        [0, 64, 128, 192]) [0, 64, 128, 192]).1.add_to_cache 256).cache
      = [([0, 64, 128, 192].map (fun a => a / 64)).tail ++ [256 / 64]] ∧
    (((probeAll (insertAll (⟨64, 4, 0, 1, 4, [[]], ∅⟩ : Cache)
        [0, 64, 128, 192]) [0, 64, 128, 192]).1.add_to_cache 256).is_in_cache
      ([0, 64, 128, 192].headD 0)).1 = false ∧
    (∀ a ∈ [0, 64, 128, 192].tail,
      (((probeAll (insertAll (⟨64, 4, 0, 1, 4, [[]], ∅⟩ : Cache)
          [0, 64, 128, 192]) [0, 64, 128, 192]).1.add_to_cache 256).is_in_cache
        a).1 = true) ∧
    (((probeAll (insertAll (⟨64, 4, 0, 1, 4, [[]], ∅⟩ : Cache)
        [0, 64, 128, 192]) [0, 64, 128, 192]).1.add_to_cache 256).is_in_cache
      256).1 = true) :=
  ⟨rfl,
   fully_assoc_fill_probe_evicts_lru 64 4 [0, 64, 128, 192] 256
     ⟨64, 4, 0, 1, 4, [[]], ∅⟩ rfl rfl (by decide) (by decide) (by decide)⟩

/-- **C2.** Direct-mapped cache `Cache(lineSize=64, numLines=4,
associativity=1)` (`numSets = 4`): after `insert(0)`, `probe(0)` hits and
`probe(256)` misses; `insert(256)` (tag 4, same set 0 as tag 0) evicts
tag 0, after which `probe(0)` misses and `probe(256)` hits. -/
theorem direct_mapped_conflict_scenario (c0 : Cache)
    (h : Cache.construct 64 4 1 = .ok c0) :
    c0.num_sets = 4 ∧
    c0.get_tag 0 = 0 ∧ c0.get_tag 256 = 4 ∧
    c0.get_set_index 0 = 0 ∧ c0.get_set_index 256 = 0 ∧
    ((c0.add_to_cache 0).is_in_cache 0).1 = true ∧
    (((c0.add_to_cache 0).is_in_cache 0).2.is_in_cache 256).1 = false ∧
    ((((c0.add_to_cache 0).is_in_cache 0).2.is_in_cache 256).2.add_to_cache
      256).cache = [[4], [], [], []] ∧
    (((((c0.add_to_cache 0).is_in_cache 0).2.is_in_cache 256).2.add_to_cache
      256).is_in_cache 0).1 = false ∧
    (((((c0.add_to_cache 0).is_in_cache 0).2.is_in_cache 256).2.add_to_cache
      256).is_in_cache 256).1 = true := by
  have hc0 : c0 = ⟨64, 4, 1, 4, 1, List.replicate 4 [], ∅⟩ := by
    unfold Cache.construct at h
    simpa using h.symm
  subst hc0
  decide

/-- Witness for C2: the constructed cache is the explicit record, and the
scenario plays out on it. -/
theorem direct_mapped_conflict_scenario_witness :
    Cache.construct 64 4 1 =
      .ok (⟨64, 4, 1, 4, 1, List.replicate 4 [], ∅⟩ : Cache) ∧
    ((⟨64, 4, 1, 4, 1, List.replicate 4 [], ∅⟩ : Cache).num_sets = 4 ∧
     (((⟨64, 4, 1, 4, 1, List.replicate 4 [], ∅⟩ : Cache).add_to_cache
       0).is_in_cache 0).1 = true) :=
  ⟨rfl,
   ⟨(direct_mapped_conflict_scenario _ rfl).1,
    (direct_mapped_conflict_scenario _ rfl).2.2.2.2.2.1⟩⟩

/-- **C4.** Construction fails with `InvalidConfiguration` exactly when
`associativity > 1` does not divide `numLines`; in every other mode it
succeeds with `numSets * linesPerSet = numLines`, all sets empty, and an
empty global tag set. -/
theorem construct_fails_iff (ls nl assoc : Nat) :
    ((∃ e, Cache.construct ls nl assoc = .error e) ↔
      1 < assoc ∧ nl % assoc ≠ 0) ∧
    (∀ c, Cache.construct ls nl assoc = .ok c →
      c.num_sets * c.lines_per_set = nl ∧ (∀ l ∈ c.cache, l = []) ∧
      c.tag_set = ∅) := by
  unfold Cache.construct
  by_cases h0 : assoc = 0
  · subst h0
    rw [if_pos rfl]
    refine ⟨by simp, ?_⟩
    rintro c hc
    injection hc with hc
    subst hc
    exact ⟨one_mul nl, fun l hl => List.eq_of_mem_replicate hl, rfl⟩
  · rw [if_neg h0]
    by_cases h1 : assoc = 1
    · subst h1
      rw [if_pos rfl]
      refine ⟨by simp, ?_⟩
      rintro c hc
      injection hc with hc
      subst hc
      exact ⟨mul_one nl, fun l hl => List.eq_of_mem_replicate hl, rfl⟩
    · rw [if_neg h1]
      by_cases hm : nl % assoc = 0
      · rw [if_neg (by simp [hm])]
        refine ⟨by simp [hm], ?_⟩
        rintro c hc
        injection hc with hc
        subst hc
        exact ⟨Nat.div_mul_cancel (Nat.dvd_of_mod_eq_zero hm),
               fun l hl => List.eq_of_mem_replicate hl, rfl⟩
      · rw [if_pos (by simp [hm])]
        refine ⟨?_, by rintro c hc; exact absurd hc (by simp)⟩
        constructor
        · intro _
          exact ⟨by omega, hm⟩
        · intro _
          exact ⟨_, rfl⟩

/-- Witness for C4: `Cache(lineSize=64, numLines=100, associativity=3)`
fails (100 is not divisible by 3). -/
theorem construct_fails_iff_witness :
    ∃ e, Cache.construct 64 100 3 = .error e :=
  (construct_fails_iff 64 100 3).1.mpr (by decide)

/-- **C5.** Two addresses with the same tag (`a / lineSize = b / lineSize`)
are treated identically by `probe` and `insert` from any cache state: same
hit/miss result, same resulting state, same eviction effects. -/
theorem same_tag_identical_treatment (c : Cache) (a b : Nat)
    (h : a / c.line_size = b / c.line_size) :
    c.is_in_cache a = c.is_in_cache b ∧
    c.add_to_cache a = c.add_to_cache b := by
  unfold Cache.is_in_cache Cache.add_to_cache Cache.get_set_index Cache.get_tag
  rw [h]
  exact ⟨rfl, rfl⟩

/-- Witness for C5: addresses 10 and 20 share tag 0 under 64-byte lines. -/
theorem same_tag_identical_treatment_witness :
    (10 : Nat) / (⟨64, 4, 0, 1, 4, [[]], ∅⟩ : Cache).line_size
      = (20 : Nat) / (⟨64, 4, 0, 1, 4, [[]], ∅⟩ : Cache).line_size ∧
    ((⟨64, 4, 0, 1, 4, [[]], ∅⟩ : Cache).is_in_cache 10
      = (⟨64, 4, 0, 1, 4, [[]], ∅⟩ : Cache).is_in_cache 20 ∧
     (⟨64, 4, 0, 1, 4, [[]], ∅⟩ : Cache).add_to_cache 10
      = (⟨64, 4, 0, 1, 4, [[]], ∅⟩ : Cache).add_to_cache 20) :=
  ⟨by decide,
   same_tag_identical_treatment ⟨64, 4, 0, 1, 4, [[]], ∅⟩ 10 20 (by decide)⟩

/-! ### Reachable states and their invariants -/

/-- The set index in which a tag resides (determined by the tag alone). -/
def tagIndex (c : Cache) (t : Nat) : Nat :=
  if c.associativity = 0 then 0 else t % c.num_sets

theorem get_set_index_eq_tagIndex (c : Cache) (a : Nat) :
    c.get_set_index a = tagIndex c (c.get_tag a) := rfl

/-- Explicit description of `is_in_cache` (the definition with its local
bindings expanded). -/
theorem is_in_cache_desc (c : Cache) (a : Nat) :
    c.is_in_cache a =
      if c.get_tag a ∈ c.cache.getD (c.get_set_index a) [] then
        (true,
         { c with
             cache := c.cache.set (c.get_set_index a)
               ((c.cache.getD (c.get_set_index a) []).erase (c.get_tag a)
                 ++ [c.get_tag a]) })
      else (false, c) := rfl

/-- Explicit description of `add_to_cache`. -/
theorem add_to_cache_desc (c : Cache) (a : Nat) :
    c.add_to_cache a =
      if c.get_tag a ∈ c.cache.getD (c.get_set_index a) [] then
        { c with
            cache := c.cache.set (c.get_set_index a)
              ((c.cache.getD (c.get_set_index a) []).erase (c.get_tag a)
                ++ [c.get_tag a]) }
      else if c.lines_per_set ≤ (c.cache.getD (c.get_set_index a) []).length then
        { c with
            cache := c.cache.set (c.get_set_index a)
              ((c.cache.getD (c.get_set_index a) []).tail ++ [c.get_tag a]),
            tag_set := insert (c.get_tag a)
              (c.tag_set.erase ((c.cache.getD (c.get_set_index a) []).headD 0)) }
      else
        { c with
            cache := c.cache.set (c.get_set_index a)
              (c.cache.getD (c.get_set_index a) [] ++ [c.get_tag a]),
            tag_set := insert (c.get_tag a) c.tag_set } := rfl

/-- Well-formedness of a cache state: right number of sets, every set
within capacity and duplicate-free, every resident tag stored in its own
set, and the global `tag_set` equal to the union of the sets' residents. -/
def CacheInv (c : Cache) : Prop :=
  c.cache.length = c.num_sets ∧
  0 < c.num_sets ∧
  1 ≤ c.lines_per_set ∧
  (∀ i, i < c.num_sets →
    (c.cache.getD i []).length ≤ c.lines_per_set ∧
    (c.cache.getD i []).Nodup ∧
    (∀ t ∈ c.cache.getD i [], tagIndex c t = i)) ∧
  (∀ t, t ∈ c.tag_set ↔ ∃ i, i < c.num_sets ∧ t ∈ c.cache.getD i [])

/-- States reachable from a freshly constructed cache (the spec's data
model has `numLines > 0`) by any sequence of probe, insert and reset. -/
inductive Reachable : Cache → Prop where
  | init (ls nl assoc : Nat) (c : Cache) (hpos : 0 < nl)
      (h : Cache.construct ls nl assoc = .ok c) : Reachable c
  | probe (c : Cache) (a : Nat) (h : Reachable c) :
      Reachable (c.is_in_cache a).2
  | insert (c : Cache) (a : Nat) (h : Reachable c) :
      Reachable (c.add_to_cache a)
  | reset (c : Cache) (h : Reachable c) : Reachable c.reset_cache

theorem getD_set_self (l : List (List Nat)) (i : Nat) (x : List Nat)
    (h : i < l.length) : (l.set i x).getD i [] = x := by
  rw [List.getD_eq_getElem _ _ (by simpa using h)]
  simp [List.getElem_set]

theorem getD_set_ne (l : List (List Nat)) (i j : Nat) (x : List Nat)
    (h : i ≠ j) : (l.set i x).getD j [] = l.getD j [] := by
  rcases Nat.lt_or_ge j l.length with hj | hj
  · rw [List.getD_eq_getElem _ _ (by simpa using hj),
      List.getD_eq_getElem _ _ hj]
    simp [List.getElem_set, h]
  · rw [List.getD_eq_default _ _ (by simpa using hj),
      List.getD_eq_default _ _ hj]

theorem getD_replicate_nil (n i : Nat) :
    (List.replicate n ([] : List Nat)).getD i [] = [] := by
  rcases Nat.lt_or_ge i n with h | h
  · rw [List.getD_eq_getElem _ _ (by simpa using h)]
    simp
  · exact List.getD_eq_default _ _ (by simpa using h)

/-- Membership in a set is unchanged by a touch (erase then re-append). -/
theorem mem_erase_append_singleton (s : List Nat) (tag : Nat)
    (htag : tag ∈ s) (t : Nat) : t ∈ s.erase tag ++ [tag] ↔ t ∈ s := by
  simp only [List.mem_append, List.mem_singleton]
  constructor
  · rintro (h | rfl)
    · exact List.erase_subset _ _ h
    · exact htag
  · intro h
    by_cases ht : t = tag
    · exact Or.inr ht
    · exact Or.inl (List.mem_erase_of_ne ht |>.mpr h)

/-- Appending a fresh tag keeps a set duplicate-free. -/
theorem nodup_append_singleton_of_not_mem (s : List Nat) (tag : Nat)
    (hnd : s.Nodup) (hmem : tag ∉ s) : (s ++ [tag]).Nodup := by
  refine hnd.append (List.nodup_singleton _) ?_
  intro x hx hx'
  rw [List.mem_singleton] at hx'
  subst hx'
  exact hmem hx

/-- A touched set stays duplicate-free. -/
theorem nodup_erase_append_singleton (s : List Nat) (tag : Nat)
    (hnd : s.Nodup) : (s.erase tag ++ [tag]).Nodup := by
  have h1 : (s.erase tag).Nodup := hnd.erase tag
  have h2 : tag ∉ s.erase tag := fun h =>
    ((hnd.mem_erase_iff).mp h).1 rfl
  simp [List.nodup_append, h1, h2]

/-- Updating one set (and the global tag set consistently) preserves the
invariant. -/
theorem CacheInv.update (c : Cache) (hInv : CacheInv c) (idx : Nat)
    (hidx : idx < c.num_sets) (snew : List Nat) (tsnew : Finset Nat)
    (hlen : snew.length ≤ c.lines_per_set) (hnd : snew.Nodup)
    (hplace : ∀ t ∈ snew, tagIndex c t = idx)
    (hts : ∀ t, t ∈ tsnew ↔
      ((t ∈ c.tag_set ∧ t ∉ c.cache.getD idx []) ∨ t ∈ snew)) :
    CacheInv { c with cache := c.cache.set idx snew, tag_set := tsnew } := by
  obtain ⟨hlen0, hns, hlps, hsets, hunion⟩ := hInv
  have hidx' : idx < c.cache.length := by omega
  refine ⟨by simpa using hlen0, hns, hlps, ?_, ?_⟩
  · intro i hi
    by_cases hii : idx = i
    · subst hii
      show ((c.cache.set idx snew).getD idx []).length ≤ c.lines_per_set ∧ _
      rw [getD_set_self _ _ _ hidx']
      exact ⟨hlen, hnd, hplace⟩
    · show ((c.cache.set idx snew).getD i []).length ≤ c.lines_per_set ∧ _
      rw [getD_set_ne _ _ _ _ hii]
      exact hsets i hi
  · intro t
    show t ∈ tsnew ↔ ∃ i, i < c.num_sets ∧ t ∈ (c.cache.set idx snew).getD i []
    rw [hts]
    constructor
    · rintro (⟨hts', hnot⟩ | hsnew)
      · obtain ⟨i, hi, hmem⟩ := (hunion t).mp hts'
        have hii : idx ≠ i := by
          rintro rfl
          exact hnot hmem
        exact ⟨i, hi, by rw [getD_set_ne _ _ _ _ hii]; exact hmem⟩
      · exact ⟨idx, hidx, by rw [getD_set_self _ _ _ hidx']; exact hsnew⟩
    · rintro ⟨i, hi, hmem⟩
      by_cases hii : idx = i
      · subst hii
        rw [getD_set_self _ _ _ hidx'] at hmem
        exact Or.inr hmem
      · rw [getD_set_ne _ _ _ _ hii] at hmem
        refine Or.inl ⟨(hunion t).mpr ⟨i, hi, hmem⟩, fun hcontra => ?_⟩
        have h1 : tagIndex c t = idx := (hsets idx hidx).2.2 t hcontra
        have h2 : tagIndex c t = i := (hsets i hi).2.2 t hmem
        exact hii (h1 ▸ h2)

theorem set_index_lt (c : Cache) (hns : 0 < c.num_sets) (a : Nat) :
    c.get_set_index a < c.num_sets := by
  rw [get_set_index_eq_tagIndex]
  unfold tagIndex
  split
  · exact hns
  · exact Nat.mod_lt _ hns

theorem CacheInv.probe (c : Cache) (hInv : CacheInv c) (a : Nat) :
    CacheInv (c.is_in_cache a).2 := by
  obtain ⟨hlen0, hns, hlps, hsets, hunion⟩ := hInv
  have hidx : c.get_set_index a < c.num_sets := set_index_lt c hns a
  rw [is_in_cache_desc]
  by_cases hmem : c.get_tag a ∈ c.cache.getD (c.get_set_index a) []
  · rw [if_pos hmem]
    have hbase := hsets (c.get_set_index a) hidx
    refine CacheInv.update c ⟨hlen0, hns, hlps, hsets, hunion⟩
      (c.get_set_index a) hidx _ c.tag_set ?_ ?_ ?_ ?_
    · rw [List.length_append, List.length_erase_of_mem hmem]
      have : 0 < (c.cache.getD (c.get_set_index a) []).length :=
        List.length_pos.mpr (List.ne_nil_of_mem hmem)
      simp only [List.length_singleton]
      omega
    · exact nodup_erase_append_singleton _ _ hbase.2.1
    · intro t ht
      exact hbase.2.2 t ((mem_erase_append_singleton _ _ hmem t).mp ht)
    · intro t
      rw [mem_erase_append_singleton _ _ hmem t]
      constructor
      · intro h
        by_cases hs : t ∈ c.cache.getD (c.get_set_index a) []
        · exact Or.inr hs
        · exact Or.inl ⟨h, hs⟩
      · rintro (⟨h, _⟩ | h)
        · exact h
        · exact (hunion t).mpr ⟨c.get_set_index a, hidx, h⟩
  · rw [if_neg hmem]
    exact ⟨hlen0, hns, hlps, hsets, hunion⟩

theorem CacheInv.insert (c : Cache) (hInv : CacheInv c) (a : Nat) :
    CacheInv (c.add_to_cache a) := by
  obtain ⟨hlen0, hns, hlps, hsets, hunion⟩ := hInv
  have hidx : c.get_set_index a < c.num_sets := set_index_lt c hns a
  have hbase := hsets (c.get_set_index a) hidx
  have hplace_tag : tagIndex c (c.get_tag a) = c.get_set_index a :=
    (get_set_index_eq_tagIndex c a).symm
  rw [add_to_cache_desc]
  by_cases hmem : c.get_tag a ∈ c.cache.getD (c.get_set_index a) []
  · rw [if_pos hmem]
    refine CacheInv.update c ⟨hlen0, hns, hlps, hsets, hunion⟩
      (c.get_set_index a) hidx _ c.tag_set ?_ ?_ ?_ ?_
    · rw [List.length_append, List.length_erase_of_mem hmem]
      have : 0 < (c.cache.getD (c.get_set_index a) []).length :=
        List.length_pos.mpr (List.ne_nil_of_mem hmem)
      simp only [List.length_singleton]
      omega
    · exact nodup_erase_append_singleton _ _ hbase.2.1
    · intro t ht
      exact hbase.2.2 t ((mem_erase_append_singleton _ _ hmem t).mp ht)
    · intro t
      rw [mem_erase_append_singleton _ _ hmem t]
      constructor
      · intro h
        by_cases hs : t ∈ c.cache.getD (c.get_set_index a) []
        · exact Or.inr hs
        · exact Or.inl ⟨h, hs⟩
      · rintro (⟨h, _⟩ | h)
        · exact h
        · exact (hunion t).mpr ⟨c.get_set_index a, hidx, h⟩
  · rw [if_neg hmem]
    by_cases hfull : c.lines_per_set ≤ (c.cache.getD (c.get_set_index a) []).length
    · rw [if_pos hfull]
      obtain ⟨lru, s', hcons⟩ :
          ∃ lru s', c.cache.getD (c.get_set_index a) [] = lru :: s' := by
        rcases hh : c.cache.getD (c.get_set_index a) [] with _ | ⟨lru, s'⟩
        · rw [hh] at hfull
          simp at hfull
          omega
        · exact ⟨lru, s', rfl⟩
      rw [hcons] at hfull hmem hbase ⊢
      have hnds' : ((lru :: s') : List Nat).Nodup := hbase.2.1
      refine CacheInv.update c ⟨hlen0, hns, hlps, hsets, hunion⟩
        (c.get_set_index a) hidx _ _ ?_ ?_ ?_ ?_
      · simp only [List.tail_cons, List.length_append, List.length_singleton]
        simp only [List.length_cons] at hbase
        omega
      · simp only [List.tail_cons]
        have h1 : s'.Nodup := hnds'.of_cons
        have h2 : c.get_tag a ∉ s' := fun h => hmem (List.mem_cons_of_mem _ h)
        simp [List.nodup_append, h1, h2]
      · intro t ht
        simp only [List.tail_cons, List.mem_append, List.mem_singleton] at ht
        rcases ht with h | rfl
        · exact hbase.2.2 t (List.mem_cons_of_mem _ h)
        · exact hplace_tag
      · intro t
        rw [hcons]
        simp only [List.headD_cons, Finset.mem_insert, Finset.mem_erase,
          List.tail_cons, List.mem_append, List.mem_singleton]
        have hlru_ts : lru ∈ c.tag_set :=
          (hunion lru).mpr ⟨c.get_set_index a, hidx, by rw [hcons]; simp⟩
        have hlru_s' : lru ∉ s' := (List.nodup_cons.mp hnds').1
        have hs'_ts : ∀ x ∈ s', x ∈ c.tag_set := fun x hx =>
          (hunion x).mpr ⟨c.get_set_index a, hidx,
            by rw [hcons]; exact List.mem_cons_of_mem _ hx⟩
        constructor
        · rintro (rfl | ⟨hne, hts⟩)
          · exact Or.inr (Or.inr rfl)
          · by_cases hs : t ∈ s'
            · exact Or.inr (Or.inl hs)
            · refine Or.inl ⟨hts, ?_⟩
              simp only [List.mem_cons]
              rintro (rfl | h)
              · exact hne rfl
              · exact hs h
        · rintro (⟨hts, hnmem⟩ | hs | rfl)
          · refine Or.inr ⟨fun h => hnmem ?_, hts⟩
            rw [h]
            simp
          · exact Or.inr ⟨fun h => hlru_s' (h ▸ hs), hs'_ts t hs⟩
          · exact Or.inl rfl
    · rw [if_neg hfull]
      refine CacheInv.update c ⟨hlen0, hns, hlps, hsets, hunion⟩
        (c.get_set_index a) hidx _ _ ?_ ?_ ?_ ?_
      · simp only [List.length_append, List.length_singleton]
        omega
      · exact nodup_append_singleton_of_not_mem _ _ hbase.2.1 hmem
      · intro t ht
        simp only [List.mem_append, List.mem_singleton] at ht
        rcases ht with h | rfl
        · exact hbase.2.2 t h
        · exact hplace_tag
      · intro t
        simp only [Finset.mem_insert, List.mem_append, List.mem_singleton]
        constructor
        · rintro (rfl | hts)
          · exact Or.inr (Or.inr rfl)
          · by_cases hs : t ∈ c.cache.getD (c.get_set_index a) []
            · exact Or.inr (Or.inl hs)
            · exact Or.inl ⟨hts, hs⟩
        · rintro (⟨hts, _⟩ | hs | rfl)
          · exact Or.inr hts
          · exact Or.inr ((hunion t).mpr ⟨c.get_set_index a, hidx, hs⟩)
          · exact Or.inl rfl

theorem reset_cache_getD (c : Cache) (i : Nat) :
    c.reset_cache.cache.getD i [] = [] := by
  show (List.replicate c.num_sets ([] : List Nat)).getD i [] = []
  exact getD_replicate_nil _ _

theorem CacheInv.reset (c : Cache) (hInv : CacheInv c) :
    CacheInv c.reset_cache := by
  obtain ⟨hlen0, hns, hlps, _, _⟩ := hInv
  refine ⟨by simp [Cache.reset_cache], hns, hlps, ?_, ?_⟩
  · intro i _
    rw [reset_cache_getD]
    simp
  · intro t
    rw [show c.reset_cache.tag_set = ∅ from rfl]
    simp only [Finset.not_mem_empty, false_iff, not_exists, not_and]
    intro x _
    rw [reset_cache_getD]
    simp

theorem CacheInv.construct (ls nl assoc : Nat) (hpos : 0 < nl) (c : Cache)
    (h : Cache.construct ls nl assoc = .ok c) : CacheInv c := by
  unfold Cache.construct at h
  have empty_sets : ∀ (n : Nat), ∀ i, i < n →
      ((List.replicate n ([] : List Nat)).getD i []).length ≤ nl ∧
      ((List.replicate n ([] : List Nat)).getD i []).Nodup := by
    intro n i _
    rw [getD_replicate_nil]
    simp
  by_cases h0 : assoc = 0
  · subst h0
    rw [if_pos rfl] at h
    injection h with h
    subst h
    exact ⟨by simp, by simp, hpos,
      fun i hi => ⟨(empty_sets 1 i hi).1, (empty_sets 1 i hi).2,
        by rw [getD_replicate_nil]; simp⟩,
      fun t => by simp [getD_replicate_nil]⟩
  · rw [if_neg h0] at h
    by_cases h1 : assoc = 1
    · subst h1
      rw [if_pos rfl] at h
      injection h with h
      subst h
      refine ⟨by simp, hpos, le_refl 1, ?_, fun t => by simp [getD_replicate_nil]⟩
      intro i hi
      rw [getD_replicate_nil]
      simp
    · rw [if_neg h1] at h
      by_cases hm : nl % assoc = 0
      · rw [if_neg (by simp [hm])] at h
        injection h with h
        subst h
        have hassoc : 2 ≤ assoc := by omega
        have hdvd : assoc ∣ nl := Nat.dvd_of_mod_eq_zero hm
        have hdiv : 0 < nl / assoc :=
          Nat.div_pos (Nat.le_of_dvd hpos hdvd) (by omega)
        refine ⟨by simp, hdiv, (by omega : 1 ≤ assoc), ?_,
          fun t => by simp [getD_replicate_nil]⟩
        intro i hi
        rw [getD_replicate_nil]
        simp
      · rw [if_pos (by simp [hm])] at h
        exact absurd h (by simp)

/-- Every reachable state satisfies the full invariant. -/
theorem reachable_cacheInv (c : Cache) (h : Reachable c) : CacheInv c := by
  induction h with
  | init ls nl assoc c hpos hok => exact CacheInv.construct ls nl assoc hpos c hok
  | probe c a _ ih => exact CacheInv.probe c ih a
  | insert c a _ ih => exact CacheInv.insert c ih a
  | reset c _ ih => exact CacheInv.reset c ih

/-- **C6.** In every cache state reachable from a freshly constructed
cache by probe, insert and reset, every set holds at most `linesPerSet`
resident tags, and the tags within each set are pairwise distinct. -/
theorem reachable_sets_bounded_and_nodup (c : Cache) (h : Reachable c) :
    ∀ l ∈ c.cache, l.length ≤ c.lines_per_set ∧ l.Nodup := by
  obtain ⟨hlen0, _, _, hsets, _⟩ := reachable_cacheInv c h
  intro l hl
  obtain ⟨i, hi, rfl⟩ := List.mem_iff_getElem.mp hl
  have hgd : c.cache.getD i [] = c.cache[i] := List.getD_eq_getElem _ _ hi
  have := hsets i (by omega)
  rw [hgd] at this
  exact ⟨this.1, this.2.1⟩

/-- Witness for C6: the set holding tag 0 in a direct-mapped cache after
one insert. -/
theorem reachable_sets_bounded_and_nodup_witness :
    ([0] : List Nat).length ≤ ((⟨64, 4, 1, 4, 1, List.replicate 4 [], ∅⟩ :
      Cache).add_to_cache 0).lines_per_set ∧ ([0] : List Nat).Nodup :=
  reachable_sets_bounded_and_nodup _
    (Reachable.insert _ 0 (Reachable.init 64 4 1 _ (by decide) rfl))
    [0] (by decide)

/-- **C10.** In every reachable cache state the auxiliary global
`tag_set` equals the union of the resident tags across all sets; `probe`
never changes `tag_set`, and `reset` empties it together with the sets. -/
theorem tag_set_eq_union_of_reachable (c : Cache) (h : Reachable c) :
    (∀ t, t ∈ c.tag_set ↔ ∃ l ∈ c.cache, t ∈ l) ∧
    (∀ a, (c.is_in_cache a).2.tag_set = c.tag_set) ∧
    c.reset_cache.tag_set = ∅ := by
  obtain ⟨hlen0, _, _, _, hunion⟩ := reachable_cacheInv c h
  refine ⟨?_, ?_, rfl⟩
  · intro t
    rw [hunion t]
    constructor
    · rintro ⟨i, hi, hmem⟩
      have hi' : i < c.cache.length := by omega
      refine ⟨c.cache[i], List.getElem_mem hi', ?_⟩
      rw [List.getD_eq_getElem _ _ hi'] at hmem
      exact hmem
    · rintro ⟨l, hl, hmem⟩
      obtain ⟨i, hi, rfl⟩ := List.mem_iff_getElem.mp hl
      exact ⟨i, by omega, by rw [List.getD_eq_getElem _ _ hi]; exact hmem⟩
  · intro a
    rw [is_in_cache_desc]
    split <;> rfl

/-- Witness for C10: a fully associative cache after an insert and a
probe. -/
theorem tag_set_eq_union_of_reachable_witness :
    (∀ t, t ∈ (((⟨16, 2, 0, 1, 2, [[]], ∅⟩ : Cache).add_to_cache
        32).is_in_cache 32).2.tag_set ↔
      ∃ l ∈ (((⟨16, 2, 0, 1, 2, [[]], ∅⟩ : Cache).add_to_cache
        32).is_in_cache 32).2.cache, t ∈ l) ∧
    (∀ a, ((((⟨16, 2, 0, 1, 2, [[]], ∅⟩ : Cache).add_to_cache
        32).is_in_cache 32).2.is_in_cache a).2.tag_set =
      (((⟨16, 2, 0, 1, 2, [[]], ∅⟩ : Cache).add_to_cache
        32).is_in_cache 32).2.tag_set) ∧
    (((⟨16, 2, 0, 1, 2, [[]], ∅⟩ : Cache).add_to_cache
        32).is_in_cache 32).2.reset_cache.tag_set = ∅ :=
  tag_set_eq_union_of_reachable _
    (Reachable.probe _ 32
      (Reachable.insert _ 32 (Reachable.init 16 2 0 _ (by decide) rfl)))

/-! ### Pattern generators (patterns/) -/

namespace Patterns

/-- Model of `random.randint(lo, hi)`: an arbitrary entropy value `d`
folded into `[lo, hi]`. For `lo ≤ hi` the result ranges over exactly the
values the Python draw can return. -/
def randint (lo hi : Int) (d : Nat) : Int :=
  lo + (d : Int) % (hi - lo + 1)

theorem randint_mem (lo hi : Int) (h : lo ≤ hi) (d : Nat) :
    lo ≤ randint lo hi d ∧ randint lo hi d ≤ hi := by
  unfold randint
  have hpos : 0 < hi - lo + 1 := by omega
  have h1 : 0 ≤ (d : Int) % (hi - lo + 1) :=
    Int.emod_nonneg _ (by omega)
  have h2 : (d : Int) % (hi - lo + 1) < hi - lo + 1 :=
    Int.emod_lt_of_pos _ hpos
  omega

/-- `BaseMemoryAccessPattern._validate_common_params` (base.py lines
46-61): `ValueError` when `max_address <= 0` or `length <= 0`. -/
def validate_common_params (max_address length : Int) :
    Except String Unit :=
  if max_address ≤ 0 then .error "Maximum address must be positive"
  else if length ≤ 0 then .error "Sequence length must be positive"
  else .ok ()

/-- `LoopPattern.generate_sequence` (loop.py lines 41-72); the one
`random.randint` start draw is supplied by entropy `r`. -/
def loop_generate_sequence (max_address length loop_size : Int)
    (r : Nat) : Except String (List Int) :=
  match validate_common_params max_address length with
  | .error e => .error e
  | .ok () =>
    if loop_size < 1 ∨ loop_size > max_address then
      .error "Loop size must be in range"
    else
      let start_address := randint 0 (max 0 (max_address - loop_size)) r
      .ok ((List.range length.toNat).map
        (fun (i : Nat) => start_address + (i : Int) % loop_size))

/-- `StridePattern.generate_sequence` (stride.py lines 38-67). -/
def stride_generate_sequence (max_address length stride : Int)
    (r : Nat) : Except String (List Int) :=
  match validate_common_params max_address length with
  | .error e => .error e
  | .ok () =>
    if stride < 1 then .error "Stride must be positive"
    else
      let start_address := randint 0 max_address r
      .ok ((List.range length.toNat).map
        (fun (i : Nat) => (start_address + (i : Int) * stride) % (max_address + 1)))

/-- `RandomPattern.generate_sequence` (random_access.py lines 20-43);
one `randint` draw per step. -/
def random_generate_sequence (max_address length : Int)
    (r : Nat → Nat) : Except String (List Int) :=
  match validate_common_params max_address length with
  | .error e => .error e
  | .ok () =>
    .ok ((List.range length.toNat).map
      (fun i => randint 0 max_address (r i)))

/-- Loop body of `SequentialWithJumpsPattern.generate_sequence`
(sequential.py lines 64-72): per step, a jump to a fresh random address
(outcome of `random.random() < epsilon` supplied by the `jump` stream)
or an increment by one modulo `max_address + 1`; the new address is
yielded. -/
def sequential_steps (max_address : Int) (jump : Nat → Bool)
    (r : Nat → Nat) : Nat → Nat → Int → List Int
  | 0, _, _ => []
  | n + 1, i, cur =>
    let next := if jump i then randint 0 max_address (r i)
                else (cur + 1) % (max_address + 1)
    next :: sequential_steps max_address jump r n (i + 1) next

/-- `SequentialWithJumpsPattern.generate_sequence` (sequential.py lines
38-72); `epsilon` is modelled as a rational. -/
def sequential_generate_sequence (max_address length : Int) (epsilon : ℚ)
    (jump : Nat → Bool) (r0 : Nat) (r : Nat → Nat) :
    Except String (List Int) :=
  match validate_common_params max_address length with
  | .error e => .error e
  | .ok () =>
    if ¬ (0 ≤ epsilon ∧ epsilon ≤ 1) then
      .error "Jump probability must be in range"
    else
      .ok (sequential_steps max_address jump r length.toNat 0
        (randint 0 max_address r0))

/-- Loop body of `StackPattern.generate_sequence` (stack.py lines
77-89): push (pointer down) when the coin says so and depth < 100, else
pop (pointer up) when depth > 0, else no movement; the pointer is then
clamped to `[0, max_address]` and yielded. -/
def stack_steps (max_address : Int) (push : Nat → Bool)
    (mv : Nat → Nat) : Nat → Nat → Int → Int → List Int
  | 0, _, _, _ => []
  | n + 1, i, sp, depth =>
    let step :=
      if push i ∧ depth < 100 then (sp - randint 1 10 (mv i), depth + 1)
      else if depth > 0 then (sp + randint 1 10 (mv i), depth - 1)
      else (sp, depth)
    let sp2 := max 0 (min step.1 max_address)
    sp2 :: stack_steps max_address push mv n (i + 1) sp2 step.2

/-- `StackPattern.generate_sequence` (stack.py lines 45-89): headroom of
1000 from each boundary for the initial pointer. -/
def stack_generate_sequence (max_address length stack_size : Int)
    (push : Nat → Bool) (r0 : Nat) (mv : Nat → Nat) :
    Except String (List Int) :=
  match validate_common_params max_address length with
  | .error e => .error e
  | .ok () =>
    if stack_size < 0 then
      .error "Initial stack size must be non-negative"
    else
      let safe_min : Int := 1000
      let safe_max : Int := max 1000 (max_address - 1000)
      let stack_pointer := randint safe_min safe_max r0
      .ok (stack_steps max_address push mv length.toNat 0
        stack_pointer stack_size)

/-- Loop body of `HeapPattern.generate_sequence` (heap.py lines 50-61):
allocate (offset grows by `randint 1 100`) when the coin says so, else
jump back to a random offset in `[0, max 1 offset]`; the address
`base + offset` is clamped to `max_address` and yielded. -/
def heap_steps (max_address base_address : Int) (alloc : Nat → Bool)
    (r : Nat → Nat) : Nat → Nat → Int → List Int
  | 0, _, _ => []
  | n + 1, i, off =>
    let off1 := if alloc i then off + randint 1 100 (r i)
                else randint 0 (max 1 off) (r i)
    let address := min (base_address + off1) max_address
    address :: heap_steps max_address base_address alloc r n (i + 1) off1

/-- `HeapPattern.generate_sequence` (heap.py lines 23-61): heap capacity
`min 10000 (max_address / 2)`. -/
def heap_generate_sequence (max_address length : Int)
    (alloc : Nat → Bool) (r0 : Nat) (r : Nat → Nat) :
    Except String (List Int) :=
  match validate_common_params max_address length with
  | .error e => .error e
  | .ok () =>
    let max_heap_size := min 10000 (max_address / 2)
    let base_address := randint 0 (max 0 (max_address - max_heap_size)) r0
    .ok (heap_steps max_address base_address alloc r length.toNat 0 0)

theorem sequential_steps_length (m : Int) (j : Nat → Bool)
    (r : Nat → Nat) : ∀ (n i : Nat) (cur : Int),
    (sequential_steps m j r n i cur).length = n := by
  intro n
  induction n with
  | zero => intro i cur; rfl
  | succ n ih => intro i cur; simp [sequential_steps, ih]

theorem sequential_steps_mem (m : Int) (hm : 0 < m) (j : Nat → Bool)
    (r : Nat → Nat) : ∀ (n i : Nat) (cur : Int),
    ∀ x ∈ sequential_steps m j r n i cur, 0 ≤ x ∧ x ≤ m := by
  intro n
  induction n with
  | zero => intro i cur x hx; simp [sequential_steps] at hx
  | succ n ih =>
    intro i cur x hx
    simp only [sequential_steps, List.mem_cons] at hx
    have hnext : 0 ≤ (if j i then randint 0 m (r i)
        else (cur + 1) % (m + 1)) ∧
        (if j i then randint 0 m (r i) else (cur + 1) % (m + 1)) ≤ m := by
      split
      · exact randint_mem 0 m (by omega) _
      · have h1 : 0 ≤ (cur + 1) % (m + 1) := Int.emod_nonneg _ (by omega)
        have h2 : (cur + 1) % (m + 1) < m + 1 := Int.emod_lt_of_pos _ (by omega)
        omega
    rcases hx with rfl | hx
    · exact hnext
    · exact ih (i + 1) _ x hx

theorem stack_steps_length (m : Int) (p : Nat → Bool) (mv : Nat → Nat) :
    ∀ (n i : Nat) (sp depth : Int),
    (stack_steps m p mv n i sp depth).length = n := by
  intro n
  induction n with
  | zero => intro i sp depth; rfl
  | succ n ih => intro i sp depth; simp [stack_steps, ih]

theorem stack_steps_mem (m : Int) (hm : 0 ≤ m) (p : Nat → Bool)
    (mv : Nat → Nat) : ∀ (n i : Nat) (sp depth : Int),
    ∀ x ∈ stack_steps m p mv n i sp depth, 0 ≤ x ∧ x ≤ m := by
  intro n
  induction n with
  | zero => intro i sp depth x hx; simp [stack_steps] at hx
  | succ n ih =>
    intro i sp depth x hx
    simp only [stack_steps, List.mem_cons] at hx
    rcases hx with rfl | hx
    · constructor
      · exact le_max_left 0 _
      · have : min (if p i ∧ depth < 100 then
            (sp - randint 1 10 (mv i), depth + 1)
          else if depth > 0 then (sp + randint 1 10 (mv i), depth - 1)
          else (sp, depth)).1 m ≤ m := min_le_right _ _
        omega
    · exact ih (i + 1) _ _ x hx

theorem heap_steps_length (m base : Int) (al : Nat → Bool)
    (r : Nat → Nat) : ∀ (n i : Nat) (off : Int),
    (heap_steps m base al r n i off).length = n := by
  intro n
  induction n with
  | zero => intro i off; rfl
  | succ n ih => intro i off; simp [heap_steps, ih]

theorem heap_steps_mem (m base : Int) (hm : 0 ≤ m) (hbase : 0 ≤ base)
    (al : Nat → Bool) (r : Nat → Nat) : ∀ (n i : Nat) (off : Int),
    0 ≤ off → ∀ x ∈ heap_steps m base al r n i off, 0 ≤ x ∧ x ≤ m := by
  intro n
  induction n with
  | zero => intro i off _ x hx; simp [heap_steps] at hx
  | succ n ih =>
    intro i off hoff x hx
    simp only [heap_steps, List.mem_cons] at hx
    have hoff1 : 0 ≤ (if al i then off + randint 1 100 (r i)
        else randint 0 (max 1 off) (r i)) := by
      split
      · have := randint_mem 1 100 (by omega) (r i)
        omega
      · exact (randint_mem 0 (max 1 off) (by omega) (r i)).1
    rcases hx with rfl | hx
    · constructor
      · have : 0 ≤ base + (if al i then off + randint 1 100 (r i)
            else randint 0 (max 1 off) (r i)) := by omega
        omega
      · exact min_le_right _ _
    · exact ih (i + 1) _ hoff1 x hx

/-- Evaluating an eagerly materialized sequence at an index. -/
theorem getD_map_range (n i : Nat) (f : Nat → Int) (h : i < n) :
    ((List.range n).map f).getD i 0 = f i := by
  rw [List.getD_eq_getElem _ _ (by simpa using h)]
  simp

/-- **C3.** Every one of the six pattern generators, on valid parameters
and for every outcome of its random draws, yields exactly `length`
addresses, each within `[0, max_address]`. -/
theorem patterns_length_and_range (max_address length : Int)
    (hma : 0 < max_address) (hlen : 0 < length) :
    (∀ (epsilon : ℚ) (jump : Nat → Bool) (r0 : Nat) (r : Nat → Nat),
      0 ≤ epsilon → epsilon ≤ 1 →
      ∀ seq, sequential_generate_sequence max_address length epsilon jump
          r0 r = .ok seq →
        seq.length = length.toNat ∧ ∀ x ∈ seq, 0 ≤ x ∧ x ≤ max_address) ∧
    (∀ (loop_size : Int) (r : Nat), 1 ≤ loop_size → loop_size ≤ max_address →
      ∀ seq, loop_generate_sequence max_address length loop_size r = .ok seq →
        seq.length = length.toNat ∧ ∀ x ∈ seq, 0 ≤ x ∧ x ≤ max_address) ∧
    (∀ r : Nat → Nat,
      ∀ seq, random_generate_sequence max_address length r = .ok seq →
        seq.length = length.toNat ∧ ∀ x ∈ seq, 0 ≤ x ∧ x ≤ max_address) ∧
    (∀ (stride : Int) (r : Nat), 1 ≤ stride →
      ∀ seq, stride_generate_sequence max_address length stride r = .ok seq →
        seq.length = length.toNat ∧ ∀ x ∈ seq, 0 ≤ x ∧ x ≤ max_address) ∧
    (∀ (stack_size : Int) (push : Nat → Bool) (r0 : Nat) (mv : Nat → Nat),
      0 ≤ stack_size →
      ∀ seq, stack_generate_sequence max_address length stack_size push r0
          mv = .ok seq →
        seq.length = length.toNat ∧ ∀ x ∈ seq, 0 ≤ x ∧ x ≤ max_address) ∧
    (∀ (alloc : Nat → Bool) (r0 : Nat) (r : Nat → Nat),
      ∀ seq, heap_generate_sequence max_address length alloc r0 r = .ok seq →
        seq.length = length.toNat ∧ ∀ x ∈ seq, 0 ≤ x ∧ x ≤ max_address) := by
  have h1 : ¬ max_address ≤ 0 := by omega
  have h2 : ¬ length ≤ 0 := by omega
  refine ⟨?_, ?_, ?_, ?_, ?_, ?_⟩
  · -- SequentialWithJumps
    intro epsilon jump r0 r he0 he1 seq hok
    simp only [sequential_generate_sequence, validate_common_params, h1, h2,
      he0, he1, and_self, not_true, if_false, Except.ok.injEq] at hok
    subst hok
    exact ⟨sequential_steps_length _ _ _ _ _ _,
      fun x hx => sequential_steps_mem max_address hma jump r _ _ _ x hx⟩
  · -- Loop
    intro loop_size r hl1 hl2 seq hok
    have h3 : ¬ (loop_size < 1 ∨ loop_size > max_address) := by omega
    simp only [loop_generate_sequence, validate_common_params, h1, h2, h3,
      if_false, Except.ok.injEq] at hok
    subst hok
    refine ⟨by rw [List.length_map, List.length_range], ?_⟩
    intro x hx
    obtain ⟨i, _, rfl⟩ := List.mem_map.mp hx
    have hstart := randint_mem 0 (max 0 (max_address - loop_size))
      (le_max_left 0 _) r
    have hmax : max 0 (max_address - loop_size) = max_address - loop_size := by
      omega
    have hmod1 : 0 ≤ (i : Int) % loop_size := Int.emod_nonneg _ (by omega)
    have hmod2 : (i : Int) % loop_size < loop_size :=
      Int.emod_lt_of_pos _ (by omega)
    omega
  · -- Random
    intro r seq hok
    simp only [random_generate_sequence, validate_common_params, h1, h2,
      if_false, Except.ok.injEq] at hok
    subst hok
    refine ⟨by rw [List.length_map, List.length_range], ?_⟩
    intro x hx
    obtain ⟨i, _, rfl⟩ := List.mem_map.mp hx
    exact randint_mem 0 max_address (by omega) (r i)
  · -- Stride
    intro stride r hs seq hok
    have h3 : ¬ stride < 1 := by omega
    simp only [stride_generate_sequence, validate_common_params, h1, h2, h3,
      if_false, Except.ok.injEq] at hok
    subst hok
    refine ⟨by rw [List.length_map, List.length_range], ?_⟩
    intro x hx
    obtain ⟨i, _, rfl⟩ := List.mem_map.mp hx
    have hm1 : 0 ≤ (randint 0 max_address r + (i : Int) * stride)
        % (max_address + 1) := Int.emod_nonneg _ (by omega)
    have hm2 : (randint 0 max_address r + (i : Int) * stride)
        % (max_address + 1) < max_address + 1 :=
      Int.emod_lt_of_pos _ (by omega)
    omega
  · -- Stack
    intro stack_size push r0 mv hss seq hok
    have h3 : ¬ stack_size < 0 := by omega
    simp only [stack_generate_sequence, validate_common_params, h1, h2, h3,
      if_false, Except.ok.injEq] at hok
    subst hok
    exact ⟨stack_steps_length _ _ _ _ _ _ _,
      fun x hx => stack_steps_mem max_address (by omega) push mv _ _ _ _ x hx⟩
  · -- Heap
    intro alloc r0 r seq hok
    simp only [heap_generate_sequence, validate_common_params, h1, h2,
      if_false, Except.ok.injEq] at hok
    subst hok
    refine ⟨heap_steps_length _ _ _ _ _ _ _, ?_⟩
    have hbase : 0 ≤ randint 0
        (max 0 (max_address - min 10000 (max_address / 2))) r0 :=
      (randint_mem 0 _ (le_max_left 0 _) r0).1
    exact fun x hx =>
      heap_steps_mem max_address _ (by omega) hbase alloc r _ _ _ le_rfl x hx

/-- Witness for C3: the loop pattern at
`maxAddress = 1000, length = 20, loopSize = 5` and zero entropy. -/
theorem patterns_length_and_range_witness :
    (1 : Int) ≤ 5 ∧ (5 : Int) ≤ 1000 ∧
    (loop_generate_sequence 1000 20 5 0 =
      .ok [0, 1, 2, 3, 4, 0, 1, 2, 3, 4, 0, 1, 2, 3, 4, 0, 1, 2, 3, 4] ∧
    (([0, 1, 2, 3, 4, 0, 1, 2, 3, 4, 0, 1, 2, 3, 4, 0, 1, 2, 3, 4] :
        List Int).length = (20 : Int).toNat ∧
      ∀ x ∈ ([0, 1, 2, 3, 4, 0, 1, 2, 3, 4, 0, 1, 2, 3, 4, 0, 1, 2, 3, 4] :
        List Int), 0 ≤ x ∧ x ≤ 1000)) :=
  ⟨by decide, by decide, rfl,
   (patterns_length_and_range 1000 20 (by decide) (by decide)).2.1 5 0
     (by decide) (by decide) _ rfl⟩

/-- **C7.** Stride pattern: for valid parameters, every two consecutive
yielded addresses differ by `stride` modulo `max_address + 1`. -/
theorem stride_consecutive_diff (max_address length stride : Int) (r : Nat)
    (hma : 0 < max_address) (hlen : 0 < length) (hs : 1 ≤ stride) :
    ∀ seq, stride_generate_sequence max_address length stride r = .ok seq →
      ∀ i : Nat, i + 1 < seq.length →
        (seq.getD (i + 1) 0 - seq.getD i 0) % (max_address + 1)
          = stride % (max_address + 1) := by
  intro seq hok i hi
  have h1 : ¬ max_address ≤ 0 := by omega
  have h2 : ¬ length ≤ 0 := by omega
  have h3 : ¬ stride < 1 := by omega
  simp only [stride_generate_sequence, validate_common_params, h1, h2, h3,
    if_false, Except.ok.injEq] at hok
  subst hok
  rw [List.length_map, List.length_range] at hi
  rw [getD_map_range _ _ _ hi, getD_map_range _ _ _ (by omega)]
  rw [← Int.sub_emod]
  congr 1
  push_cast
  ring

/-- Witness for C7: the spec's concrete scenario D
(`maxAddress = 999, length = 10, stride = 8`). -/
theorem stride_consecutive_diff_witness :
    stride_generate_sequence 999 10 8 3 =
      .ok [3, 11, 19, 27, 35, 43, 51, 59, 67, 75] ∧
    ∀ i : Nat,
      i + 1 < ([3, 11, 19, 27, 35, 43, 51, 59, 67, 75] : List Int).length →
      (([3, 11, 19, 27, 35, 43, 51, 59, 67, 75] : List Int).getD (i + 1) 0
        - ([3, 11, 19, 27, 35, 43, 51, 59, 67, 75] : List Int).getD i 0)
          % ((999 : Int) + 1) = (8 : Int) % ((999 : Int) + 1) :=
  ⟨rfl,
   stride_consecutive_diff 999 10 8 3 (by decide) (by decide) (by decide)
     _ rfl⟩

/-- **C8.** Loop pattern: for valid parameters and indices
`loopSize ≤ i < length`, the yielded sequence satisfies
`sequence[i] = sequence[i % loopSize]`. -/
theorem loop_repeats_modulo (max_address length loop_size : Int) (r : Nat)
    (hma : 0 < max_address) (hlen : 0 < length)
    (hl1 : 1 ≤ loop_size) (hl2 : loop_size ≤ max_address) :
    ∀ seq, loop_generate_sequence max_address length loop_size r = .ok seq →
      ∀ i : Nat, loop_size.toNat ≤ i → i < seq.length →
        seq.getD i 0 = seq.getD (i % loop_size.toNat) 0 := by
  intro seq hok i hge hi
  have h1 : ¬ max_address ≤ 0 := by omega
  have h2 : ¬ length ≤ 0 := by omega
  have h3 : ¬ (loop_size < 1 ∨ loop_size > max_address) := by omega
  simp only [loop_generate_sequence, validate_common_params, h1, h2, h3,
    if_false, Except.ok.injEq] at hok
  subst hok
  rw [List.length_map, List.length_range] at hi
  have hmod_lt : i % loop_size.toNat < length.toNat :=
    Nat.lt_of_le_of_lt (Nat.mod_le i _) hi
  rw [getD_map_range _ _ _ hi, getD_map_range _ _ _ hmod_lt]
  congr 1
  have hcast : ((loop_size.toNat : Int)) = loop_size :=
    Int.toNat_of_nonneg (by omega)
  rw [Int.natCast_mod, hcast]
  exact (Int.emod_emod_of_dvd _ dvd_rfl).symm

/-- Witness for C8: the spec's concrete scenario C
(`maxAddress = 1000, length = 20, loopSize = 5`); in particular index 7
repeats index 2. -/
theorem loop_repeats_modulo_witness :
    loop_generate_sequence 1000 20 5 0 =
      .ok [0, 1, 2, 3, 4, 0, 1, 2, 3, 4, 0, 1, 2, 3, 4, 0, 1, 2, 3, 4] ∧
    (∀ i : Nat, (5 : Int).toNat ≤ i →
      i < ([0, 1, 2, 3, 4, 0, 1, 2, 3, 4, 0, 1, 2, 3, 4, 0, 1, 2, 3, 4] :
        List Int).length →
      ([0, 1, 2, 3, 4, 0, 1, 2, 3, 4, 0, 1, 2, 3, 4, 0, 1, 2, 3, 4] :
        List Int).getD i 0 =
      ([0, 1, 2, 3, 4, 0, 1, 2, 3, 4, 0, 1, 2, 3, 4, 0, 1, 2, 3, 4] :
        List Int).getD (i % (5 : Int).toNat) 0) :=
  ⟨rfl,
   loop_repeats_modulo 1000 20 5 0 (by decide) (by decide) (by decide)
     (by decide) _ rfl⟩

/-- **C9.** Each pattern generator fails with `InvalidParameter` exactly
when the common bounds (`maxAddress > 0`, `length > 0`) or its
pattern-specific bound is violated — in which case no address at all is
produced — and succeeds with the full `length` addresses otherwise. -/
theorem patterns_error_iff (max_address length : Int) :
    (∀ (epsilon : ℚ) (jump : Nat → Bool) (r0 : Nat) (r : Nat → Nat),
      ((∃ e, sequential_generate_sequence max_address length epsilon jump
          r0 r = .error e) ↔
        max_address ≤ 0 ∨ length ≤ 0 ∨ ¬ (0 ≤ epsilon ∧ epsilon ≤ 1)) ∧
      (¬ (max_address ≤ 0 ∨ length ≤ 0 ∨ ¬ (0 ≤ epsilon ∧ epsilon ≤ 1)) →
        ∃ seq, sequential_generate_sequence max_address length epsilon jump
          r0 r = .ok seq ∧ seq.length = length.toNat)) ∧
    (∀ (loop_size : Int) (r : Nat),
      ((∃ e, loop_generate_sequence max_address length loop_size r
          = .error e) ↔
        max_address ≤ 0 ∨ length ≤ 0 ∨ loop_size < 1 ∨
          loop_size > max_address) ∧
      (¬ (max_address ≤ 0 ∨ length ≤ 0 ∨ loop_size < 1 ∨
          loop_size > max_address) →
        ∃ seq, loop_generate_sequence max_address length loop_size r
          = .ok seq ∧ seq.length = length.toNat)) ∧
    (∀ r : Nat → Nat,
      ((∃ e, random_generate_sequence max_address length r = .error e) ↔
        max_address ≤ 0 ∨ length ≤ 0) ∧
      (¬ (max_address ≤ 0 ∨ length ≤ 0) →
        ∃ seq, random_generate_sequence max_address length r = .ok seq ∧
          seq.length = length.toNat)) ∧
    (∀ (stride : Int) (r : Nat),
      ((∃ e, stride_generate_sequence max_address length stride r
          = .error e) ↔
        max_address ≤ 0 ∨ length ≤ 0 ∨ stride < 1) ∧
      (¬ (max_address ≤ 0 ∨ length ≤ 0 ∨ stride < 1) →
        ∃ seq, stride_generate_sequence max_address length stride r
          = .ok seq ∧ seq.length = length.toNat)) ∧
    (∀ (stack_size : Int) (push : Nat → Bool) (r0 : Nat) (mv : Nat → Nat),
      ((∃ e, stack_generate_sequence max_address length stack_size push r0
          mv = .error e) ↔
        max_address ≤ 0 ∨ length ≤ 0 ∨ stack_size < 0) ∧
      (¬ (max_address ≤ 0 ∨ length ≤ 0 ∨ stack_size < 0) →
        ∃ seq, stack_generate_sequence max_address length stack_size push
          r0 mv = .ok seq ∧ seq.length = length.toNat)) ∧
    (∀ (alloc : Nat → Bool) (r0 : Nat) (r : Nat → Nat),
      ((∃ e, heap_generate_sequence max_address length alloc r0 r
          = .error e) ↔
        max_address ≤ 0 ∨ length ≤ 0) ∧
      (¬ (max_address ≤ 0 ∨ length ≤ 0) →
        ∃ seq, heap_generate_sequence max_address length alloc r0 r
          = .ok seq ∧ seq.length = length.toNat)) := by
  refine ⟨?_, ?_, ?_, ?_, ?_, ?_⟩
  · intro epsilon jump r0 r
    constructor
    · by_cases hma : max_address ≤ 0
      · simp [sequential_generate_sequence, validate_common_params, hma]
      · by_cases hl : length ≤ 0
        · simp [sequential_generate_sequence, validate_common_params, hma, hl]
        · by_cases he : 0 ≤ epsilon ∧ epsilon ≤ 1
          · simp [sequential_generate_sequence, validate_common_params,
              hma, hl, he]
          · simp [sequential_generate_sequence, validate_common_params,
              hma, hl, he]
    · intro h
      push_neg at h
      obtain ⟨hma, hl, he⟩ := h
      have hma' : ¬ max_address ≤ 0 := by omega
      have hl' : ¬ length ≤ 0 := by omega
      simp only [sequential_generate_sequence, validate_common_params,
        hma', hl', he.1, he.2, and_self, not_true, if_false]
      exact ⟨_, rfl, sequential_steps_length _ _ _ _ _ _⟩
  · intro loop_size r
    constructor
    · by_cases hma : max_address ≤ 0
      · simp [loop_generate_sequence, validate_common_params, hma]
      · by_cases hl : length ≤ 0
        · simp [loop_generate_sequence, validate_common_params, hma, hl]
        · by_cases hp : loop_size < 1 ∨ loop_size > max_address
          · simp [loop_generate_sequence, validate_common_params, hma, hl, hp]
          · simp [loop_generate_sequence, validate_common_params, hma, hl, hp]
    · intro h
      push_neg at h
      obtain ⟨hma, hl, hp1, hp2⟩ := h
      have hma' : ¬ max_address ≤ 0 := by omega
      have hl' : ¬ length ≤ 0 := by omega
      have hp : ¬ (loop_size < 1 ∨ loop_size > max_address) := by omega
      simp only [loop_generate_sequence, validate_common_params,
        hma', hl', hp, if_false]
      exact ⟨_, rfl, by rw [List.length_map, List.length_range]⟩
  · intro r
    constructor
    · by_cases hma : max_address ≤ 0
      · simp [random_generate_sequence, validate_common_params, hma]
      · by_cases hl : length ≤ 0
        · simp [random_generate_sequence, validate_common_params, hma, hl]
        · simp [random_generate_sequence, validate_common_params, hma, hl]
    · intro h
      push_neg at h
      obtain ⟨hma, hl⟩ := h
      have hma' : ¬ max_address ≤ 0 := by omega
      have hl' : ¬ length ≤ 0 := by omega
      simp only [random_generate_sequence, validate_common_params,
        hma', hl', if_false]
      exact ⟨_, rfl, by rw [List.length_map, List.length_range]⟩
  · intro stride r
    constructor
    · by_cases hma : max_address ≤ 0
      · simp [stride_generate_sequence, validate_common_params, hma]
      · by_cases hl : length ≤ 0
        · simp [stride_generate_sequence, validate_common_params, hma, hl]
        · by_cases hp : stride < 1
          · simp [stride_generate_sequence, validate_common_params,
              hma, hl, hp]
          · simp [stride_generate_sequence, validate_common_params,
              hma, hl, hp]
    · intro h
      push_neg at h
      obtain ⟨hma, hl, hp⟩ := h
      have hma' : ¬ max_address ≤ 0 := by omega
      have hl' : ¬ length ≤ 0 := by omega
      have hp' : ¬ stride < 1 := by omega
      simp only [stride_generate_sequence, validate_common_params,
        hma', hl', hp', if_false]
      exact ⟨_, rfl, by rw [List.length_map, List.length_range]⟩
  · intro stack_size push r0 mv
    constructor
    · by_cases hma : max_address ≤ 0
      · simp [stack_generate_sequence, validate_common_params, hma]
      · by_cases hl : length ≤ 0
        · simp [stack_generate_sequence, validate_common_params, hma, hl]
        · by_cases hp : stack_size < 0
          · simp [stack_generate_sequence, validate_common_params,
              hma, hl, hp]
          · simp [stack_generate_sequence, validate_common_params,
              hma, hl, hp]
    · intro h
      push_neg at h
      obtain ⟨hma, hl, hp⟩ := h
      have hma' : ¬ max_address ≤ 0 := by omega
      have hl' : ¬ length ≤ 0 := by omega
      have hp' : ¬ stack_size < 0 := by omega
      simp only [stack_generate_sequence, validate_common_params,
        hma', hl', hp', if_false]
      exact ⟨_, rfl, stack_steps_length _ _ _ _ _ _ _⟩
  · intro alloc r0 r
    constructor
    · by_cases hma : max_address ≤ 0
      · simp [heap_generate_sequence, validate_common_params, hma]
      · by_cases hl : length ≤ 0
        · simp [heap_generate_sequence, validate_common_params, hma, hl]
        · simp [heap_generate_sequence, validate_common_params, hma, hl]
    · intro h
      push_neg at h
      obtain ⟨hma, hl⟩ := h
      have hma' : ¬ max_address ≤ 0 := by omega
      have hl' : ¬ length ≤ 0 := by omega
      simp only [heap_generate_sequence, validate_common_params,
        hma', hl', if_false]
      exact ⟨_, rfl, heap_steps_length _ _ _ _ _ _ _⟩

/-- Witness for C9: `loopSize = 0` (outside `[1, maxAddress]`) makes the
loop pattern fail, and valid parameters make it succeed. -/
theorem patterns_error_iff_witness :
    (∃ e, loop_generate_sequence 1000 20 0 7 = .error e) ∧
    (∃ seq, loop_generate_sequence 1000 20 5 7 = .ok seq ∧
      seq.length = (20 : Int).toNat) :=
  ⟨(((patterns_error_iff 1000 20).2.1 0 7).1).mpr (by decide),
   ((patterns_error_iff 1000 20).2.1 5 7).2 (by decide)⟩

end Patterns

end CacheSim
